import Mathlib

/-!
Verification of the MuleSoft documentation scraper
(`mulesoft_server.py`, `mulesoft_utils.py`, `mulesoft_constants.py`).

The Python code is shallowly embedded: parsed HTML pages (`BeautifulSoup`
objects) become a `Soup` structure holding the tables, headings, links,
paragraphs and raw text that the scraper inspects; HTTP fetching becomes an
explicit `fetch : String → Except String Soup` parameter (an `.error` value
models a raised `requests.RequestException`); Python dicts that the scraper
returns become Lean structures, and dicts used as maps become association
lists with Python insertion-order semantics.
-/

namespace Mulesoft

/-! ## Python string primitives -/

/-- The whitespace characters stripped by Python `str.strip()` (ASCII). -/
def pyIsSpace (c : Char) : Bool :=
  c = ' ' || c = '\t' || c = '\n' || c = '\r' || c = '\x0b' || c = '\x0c'

/-- `str.strip()` on a character list: drop leading and trailing whitespace. -/
def pyStripList (l : List Char) : List Char :=
  ((l.dropWhile pyIsSpace).reverse.dropWhile pyIsSpace).reverse

/-- `str.strip()`. -/
def pyStrip (s : String) : String := String.mk (pyStripList s.data)

/-- `str.lower()` (ASCII). -/
def pyLower (s : String) : String := String.mk (s.data.map Char.toLower)

/-- `str.upper()` (ASCII). -/
def pyUpper (s : String) : String := String.mk (s.data.map Char.toUpper)

/-- `str.capitalize()`: first character upper-cased, the rest lower-cased. -/
def pyCapitalize (s : String) : String :=
  match s.data with
  | [] => ""
  | c :: rest => String.mk (c.toUpper :: rest.map Char.toLower)

/-- Substring test on character lists (Python `needle in hay`). -/
def containsSub (needle : List Char) : List Char → Bool
  | [] => needle.isEmpty
  | c :: rest => needle.isPrefixOf (c :: rest) || containsSub needle rest

/-- Python `needle in hay` for strings. -/
def pyIn (needle hay : String) : Bool := containsSub needle.data hay.data

/-- Python `s.startswith(pre)`. -/
def pyStartsWith (s pre : String) : Bool := pre.data.isPrefixOf s.data

/-- Python slicing `s[n:]`. -/
def pyDropStr (n : Nat) (s : String) : String := String.mk (s.data.drop n)

/-- `str.replace(pat, repl)`, one scan step per unit of fuel.  The scan moves
left to right replacing non-overlapping occurrences; fuel `l.length` always
suffices because every step consumes at least one character, so the `0` case
is unreachable from `pyReplace`. -/
def pyReplaceAux (pat repl : List Char) : Nat → List Char → List Char
  | _, [] => []
  | 0, l => l
  | fuel + 1, c :: rest =>
    if pat.isPrefixOf (c :: rest) ∧ pat ≠ [] then
      repl ++ pyReplaceAux pat repl fuel (List.drop (pat.length - 1) rest)
    else
      c :: pyReplaceAux pat repl fuel rest

/-- Python `str.replace(pat, repl)` on character lists. -/
def pyReplace (pat repl l : List Char) : List Char := pyReplaceAux pat repl l.length l

/-- Python `str.replace(pat, repl)` on strings. -/
def pyReplaceS (pat repl s : String) : String :=
  String.mk (pyReplace pat.data repl.data s.data)

/-- Decimal value of a digit run (Python `int` on a digit string). -/
def digitsToNat (ds : List Char) : Nat :=
  ds.foldl (fun a c => 10 * a + (c.toNat - 48)) 0

/-- The maximal digit runs of a string, in order of appearance: the model of
`re.findall(r'\d+', s)`. -/
def digitRuns : List Char → List (List Char)
  | [] => []
  | c :: rest =>
    if c.isDigit then
      match rest with
      | [] => [[c]]
      | d :: _ =>
        if d.isDigit then
          match digitRuns rest with
          | run :: t => (c :: run) :: t
          | [] => [[c]]
        else [c] :: digitRuns rest
    else digitRuns rest

/-- Python `s.split('.')` on character lists. -/
def splitDot : List Char → List (List Char)
  | [] => [[]]
  | c :: rest =>
    if c = '.' then [] :: splitDot rest
    else
      match splitDot rest with
      | [] => [[c]]
      | h :: t => (c :: h) :: t

/-- Python `int(s)` for a string: optional surrounding whitespace, optional
sign, a non-empty digit run; anything else raises (`none`). -/
def pyInt (s : List Char) : Option Int :=
  match pyStripList s with
  | '-' :: ds => if ds ≠ [] ∧ ds.all Char.isDigit then some (-(digitsToNat ds : Int)) else none
  | '+' :: ds => if ds ≠ [] ∧ ds.all Char.isDigit then some (digitsToNat ds) else none
  | ds => if ds ≠ [] ∧ ds.all Char.isDigit then some (digitsToNat ds) else none

/-- Run an option-valued function over a list, failing if any element fails
(the model of a Python list comprehension whose body can raise). -/
def mapOption {α β : Type} (f : α → Option β) : List α → Option (List β)
  | [] => some []
  | a :: l =>
    match f a with
    | none => none
    | some b =>
      match mapOption f l with
      | none => none
      | some bs => some (b :: bs)

/-- Python dict assignment `d[k] = v` on an insertion-ordered association
list: update in place if the key exists, else append. -/
def dictInsert {β : Type} (k : String) (v : β) : List (String × β) → List (String × β)
  | [] => [(k, v)]
  | (k', v') :: rest => if k' = k then (k, v) :: rest else (k', v') :: dictInsert k v rest

/-- Python `d[k]` / `k in d` lookup on an association list. -/
def dictGet {β : Type} (d : List (String × β)) (k : String) : Option β :=
  (d.find? (fun kv => kv.1 = k)).map (·.2)

/-! ## The version regexes (`mulesoft_utils.py`)

`re.match(r'^\d+\.\d+', text)` succeeds iff the maximal digit prefix of
`text` is non-empty and is immediately followed by a dot and a digit (by
greedy matching with backtracking, the only split of a digit run that can be
followed by `'.'` is the maximal one). -/

/-- Matcher for `^\d+\.\d+` at the start of a character list. -/
def startsVersion (l : List Char) : Bool :=
  match l.dropWhile Char.isDigit with
  | c0 :: c :: _ =>
    decide (c0 = '.') && !(l.takeWhile Char.isDigit).isEmpty && c.isDigit
  | _ => false

/-- `is_version_string(text)`: `bool(re.match(r'^\d+\.\d+', text))`. -/
def is_version_string (text : String) : Bool := startsVersion text.data

/-- `parse_jdk_versions(jdk_string)`: `[]` for falsy input, else
`re.findall(r'\d+', jdk_string.replace("and", ",").strip())` converted to
integers.  `none` models Python `None`. -/
def parse_jdk_versions (jdk_string : Option String) : List Nat :=
  match jdk_string with
  | none => []
  | some s =>
    if s = "" then []
    else (digitRuns (pyStripList (pyReplace "and".data ",".data s.data))).map digitsToNat

/-- Greedy matcher for `[\d]+\.[\d]+(?:\.[\d]+)?` at the start of a character
list, returning the matched text.  The optional third group is taken iff a
dot followed by a digit is present (greedy with backtracking). -/
def matchNum (l : List Char) : Option (List Char) :=
  let d1 := l.takeWhile Char.isDigit
  match l.dropWhile Char.isDigit with
  | c0 :: r2 =>
    if c0 = '.' ∧ d1 ≠ [] then
      let d2 := r2.takeWhile Char.isDigit
      if d2 = [] then none
      else
        match r2.dropWhile Char.isDigit with
        | c1 :: r4 =>
          if c1 = '.' then
            let d3 := r4.takeWhile Char.isDigit
            if d3 = [] then some (d1 ++ '.' :: d2)
            else some (d1 ++ '.' :: d2 ++ '.' :: d3)
          else some (d1 ++ '.' :: d2)
        | [] => some (d1 ++ '.' :: d2)
    else none
  | [] => none

/-- After the literal word `Version`/`version`: match `\s*` (greedily) and
then the numeric part, returning the text matched after the word. -/
def matchAfterWord (rest : List Char) : Option (List Char) :=
  match matchNum (rest.dropWhile pyIsSpace) with
  | some num => some (rest.takeWhile pyIsSpace ++ num)
  | none => none

/-- Matcher for `(?:[Vv]ersion\s*)?[\d]+\.[\d]+(?:\.[\d]+)?` at the start of
a character list (greedy: the optional word is taken if the rest of the
pattern can follow it, otherwise matching retries without it). -/
def matchVersionAt (l : List Char) : Option (List Char) :=
  if "Version".data.isPrefixOf l then
    match matchAfterWord (l.drop 7) with
    | some m => some ("Version".data ++ m)
    | none => matchNum l
  else if "version".data.isPrefixOf l then
    match matchAfterWord (l.drop 7) with
    | some m => some ("version".data ++ m)
    | none => matchNum l
  else matchNum l

/-- `re.search` for the version pattern: try each start position from the
left and return the first match. -/
def searchVersion : List Char → Option (List Char)
  | [] => none
  | c :: rest =>
    match matchVersionAt (c :: rest) with
    | some m => some m
    | none => searchVersion rest

/-- `extract_version_number(text)`: the first match of
`(?:[Vv]ersion\s*)?[\d]+\.[\d]+(?:\.[\d]+)?`, with the words `Version` and
`version` replaced by the empty string and the result stripped; `""` when
there is no match. -/
def extract_version_number (text : String) : String :=
  match searchVersion text.data with
  | some m =>
    String.mk (pyStripList (pyReplace "version".data [] (pyReplace "Version".data [] m)))
  | none => ""

/-- `re.findall` for the version pattern, one scan step per unit of fuel:
at each position either a match is emitted and the scan jumps past it, or
the scan advances one character.  Every successful match consumes at least
one character, so fuel `l.length` always suffices. -/
def findAllAux : Nat → List Char → List (List Char)
  | _, [] => []
  | 0, _ => []
  | fuel + 1, c :: rest =>
    match matchVersionAt (c :: rest) with
    | some m => m :: findAllAux fuel (List.drop (m.length - 1) rest)
    | none => findAllAux fuel rest

/-- `re.findall(r'(?:[Vv]ersion\s*)?[\d]+\.[\d]+(?:\.[\d]+)?', text)`. -/
def findAllVersions (l : List Char) : List (List Char) := findAllAux l.length l

/-! ## Python list comparison and stable sorting -/

/-- Python `<=` on integer lists (lexicographic; a proper prefix is
smaller). -/
def pyListLe : List Int → List Int → Bool
  | [], _ => true
  | _ :: _, [] => false
  | a :: as', b :: bs => if a < b then true else if b < a then false else pyListLe as' bs

/-- Insert `a` before the first element `b` with `le a b` (ordered insert of
a stable insertion sort). -/
def insertB {α : Type} (le : α → α → Bool) (a : α) : List α → List α
  | [] => [a]
  | b :: bs => if le a b then a :: b :: bs else b :: insertB le a bs

/-- Stable insertion sort.  Python `sorted` is specified as the stable sort
by its comparison, and the stable sorted permutation is unique, so this
models `sorted(l, key=k, reverse=True)` with `le a b := k b <= k a`. -/
def sortB {α : Type} (le : α → α → Bool) : List α → List α
  | [] => []
  | a :: l => insertB le a (sortB le l)

/-! ## The parsed-page model -/

/-- One table cell: `isTh` distinguishes `<th>` from `<td>`, `text` is the
raw cell text (the scraper applies `get_text(strip=True)`, modelled by
`pyStrip`). -/
structure Cell where
  isTh : Bool
  text : String
deriving DecidableEq, Repr

/-- One `<tr>` row: its cells in order. -/
abbrev Row : Type := List Cell

/-- One `<table>`: its rows in order. -/
abbrev Table : Type := List Row

/-- A parsed HTML page, holding exactly the views the scraper queries:
`tables` (`find_all('table')`), `headingBlocks` (each `h2`/`h3`/`h4` heading
text together with the non-empty stripped texts of its following siblings up
to the next heading), `paragraphs` (`find_all('p')` texts), `links`
(`find_all('a', href=True)` as stripped text / href pairs), and `allText`
(`soup.get_text()`). -/
structure Soup where
  tables : List Table
  headingBlocks : List (String × List String)
  paragraphs : List String
  links : List (String × String)
  allText : String
deriving DecidableEq, Repr

/-- The `<td>` cells of a row (`row.find_all(['td'])`). -/
def tdCells (r : Row) : List Cell := r.filter (fun c => !c.isTh)

/-- The header texts of a table: the `th`/`td` cells of row 0, stripped and
lower-cased (`[cell.get_text(strip=True).lower() for cell in header_cells]`). -/
def headerTexts (t : Table) : List String :=
  match t with
  | [] => []
  | h :: _ => h.map (fun c => pyLower (pyStrip c.text))

/-- The data rows scanned by a row-scan: `rows[1:]` of every table with more
than one row (`if len(rows) > 1: for row in rows[1:]`). -/
def dataRows (tables : List Table) : List Row :=
  tables.flatMap (fun t => if t.length > 1 then t.drop 1 else [])

/-! ## URLs (`mulesoft_constants.py`) -/

def MULESOFT_URLS_lts_edge_release_cadence : String :=
  "https://docs.mulesoft.com/release-notes/mule-runtime/lts-edge-release-cadence"

def MULESOFT_URLS_java_support : String := "https://docs.mulesoft.com/general/java-support"

def MULESOFT_URLS_dataweave : String := "https://docs.mulesoft.com/dataweave/"

def MULESOFT_URLS_connectors : String := "https://docs.mulesoft.com/connectors/"

def MULESOFT_URLS_connector_release_notes : String :=
  "https://docs.mulesoft.com/connectors/introduction/connector-release-notes"

/-- `MULESOFT_URLS["dataweave_release_notes_template"].format(version=v)`. -/
def dataweaveReleaseNotesUrl (v : String) : String :=
  "https://docs.mulesoft.com/release-notes/dataweave/dataweave-" ++ v ++ "-release-notes"

/-! ## Runtime-version scraper (`_extract_versions_from_tables`,
`_scrape_mulesoft_versions`) -/

/-- The full per-row record appended to `version_data`. -/
structure VersionRecord where
  version : String
  release_date : String
  jdk_versions : List Nat
  jdk_versions_string : String
  type : String
deriving DecidableEq, Repr

/-- The three-key record appended to `edge_versions`/`lts_versions` on the
classified path. -/
structure SimpleVersion where
  version : String
  release_date : String
  jdk_versions : List Nat
deriving DecidableEq, Repr

/-- An element of the returned `edge_versions`/`lts_versions` lists: the
classified path appends three-key dicts, the fallback path appends the full
`version_data` dicts. -/
inductive RowEntry where
  | simple (s : SimpleVersion)
  | full (r : VersionRecord)
deriving DecidableEq, Repr

/-- The row-scan of the cadence page: a row with at least three `<td>` cells
whose first stripped cell passes `is_version_string` is accepted. -/
def rowRecord (row : Row) : Option VersionRecord :=
  match tdCells row with
  | c0 :: c1 :: c2 :: _ =>
    let version_text := pyStrip c0.text
    if is_version_string version_text then
      let jdk_string := pyStrip c2.text
      some { version := version_text
             release_date := pyStrip c1.text
             jdk_versions := parse_jdk_versions (some jdk_string)
             jdk_versions_string := jdk_string
             type := if pyIn "Edge" version_text then "Edge"
                     else if pyIn "LTS" version_text then "LTS" else "Unknown" }
    else none
  | _ => none

/-- `version_data`: every accepted row, in table-and-row order. -/
def versionData (tables : List Table) : List VersionRecord :=
  (dataRows tables).filterMap rowRecord

/-- The rows classified as Edge (`'Edge' in version_text`). -/
def edgeClassified (vd : List VersionRecord) : List RowEntry :=
  (vd.filter (fun r => pyIn "Edge" r.version)).map
    (fun r => RowEntry.simple ⟨r.version, r.release_date, r.jdk_versions⟩)

/-- The rows classified as LTS (`elif 'LTS' in version_text`). -/
def ltsClassified (vd : List VersionRecord) : List RowEntry :=
  (vd.filter (fun r => !pyIn "Edge" r.version && pyIn "LTS" r.version)).map
    (fun r => RowEntry.simple ⟨r.version, r.release_date, r.jdk_versions⟩)

/-- The Java-support row-scan building `java_data` and `java_data_strings`
(2-cell rows; dict insertion order). -/
def extractJavaData (java : Soup) : List (String × List Nat) × List (String × String) :=
  (dataRows java.tables).foldl
    (fun acc row =>
      match tdCells row with
      | c0 :: c1 :: _ =>
        let version := pyStrip c0.text
        let jdk_support := pyStrip c1.text
        if is_version_string version then
          (dictInsert version (parse_jdk_versions (some jdk_support)) acc.1,
           dictInsert version jdk_support acc.2)
        else acc
      | _ => acc)
    ([], [])

/-- The Java-support row-scan building only `java_data` (the variant in the
DataWeave and connector scrapers). -/
def extractJavaDataSimple (java : Soup) : List (String × List Nat) :=
  (dataRows java.tables).foldl
    (fun acc row =>
      match tdCells row with
      | c0 :: c1 :: _ =>
        let version := pyStrip c0.text
        let jdk_support := pyStrip c1.text
        if is_version_string version then
          dictInsert version (parse_jdk_versions (some jdk_support)) acc
        else acc
      | _ => acc)
    []

/-- The success payload of `_extract_versions_from_tables`. -/
structure RuntimeInfo where
  edge_versions : List RowEntry
  lts_versions : List RowEntry
  java_compatibility : List (String × List Nat)
  java_compatibility_strings : List (String × String)
  source_urls : List String
deriving DecidableEq, Repr

/-- `_extract_versions_from_tables(lts_edge_soup, java_soup)`: row-scan and
classify, apply the first-three-Edge / last-LTS fallback when nothing was
classified, and attach the Java map and the source URLs. -/
def extract_versions_from_tables (lts_edge_soup java_soup : Soup) : RuntimeInfo :=
  let vd := versionData lts_edge_soup.tables
  let edge0 := edgeClassified vd
  let lts0 := ltsClassified vd
  let fallback := edge0 = [] ∧ lts0 = [] ∧ vd ≠ []
  let edge := if fallback then edge0 ++ (vd.take 3).map RowEntry.full else edge0
  let lts := if fallback then
      lts0 ++ (match vd.getLast? with | some x => [RowEntry.full x] | none => [])
    else lts0
  let java := extractJavaData java_soup
  { edge_versions := edge
    lts_versions := lts
    java_compatibility := java.1
    java_compatibility_strings := java.2
    source_urls := [MULESOFT_URLS_lts_edge_release_cadence, MULESOFT_URLS_java_support] }

/-- The top-level return shape of `_scrape_mulesoft_versions`: a success
dict or an `{"error": msg}` dict. -/
inductive RuntimeResult where
  | ok (info : RuntimeInfo)
  | error (msg : String)
deriving DecidableEq, Repr

/-- `_scrape_mulesoft_versions()`: fetch the cadence page then the
Java-support page; a raised fetch error becomes the `error` dict; otherwise
extract.  The extraction itself is total, so no other exception can
escape. -/
def scrape_mulesoft_versions (fetch : String → Except String Soup) : RuntimeResult :=
  match fetch MULESOFT_URLS_lts_edge_release_cadence with
  | .error e => .error ("Failed to fetch MuleSoft documentation: " ++ e)
  | .ok lts_edge_soup =>
    match fetch MULESOFT_URLS_java_support with
    | .error e => .error ("Failed to fetch MuleSoft documentation: " ++ e)
    | .ok java_soup => .ok (extract_versions_from_tables lts_edge_soup java_soup)

/-! ## DataWeave scraper (`_extract_dataweave_versions`) -/

/-- A `{mule_version, dataweave_version}` pair from the compatibility
table. -/
structure DWPair where
  mule_version : String
  dataweave_version : String
deriving DecidableEq, Repr

/-- Row-scan of a compatibility row: at least two `<td>` cells, both passing
`is_version_string`. -/
def compatRow (row : Row) : Option DWPair :=
  match tdCells row with
  | c0 :: c1 :: _ =>
    let mule_version := pyStrip c0.text
    let dataweave_version := pyStrip c1.text
    if is_version_string mule_version ∧ is_version_string dataweave_version then
      some ⟨mule_version, dataweave_version⟩
    else none
  | _ => none

/-- `compatibility_data`: rows of every table with more than one row whose
header row contains a cell with `'mule'` or `'runtime'` as a substring. -/
def compatData (tables : List Table) : List DWPair :=
  tables.flatMap (fun t =>
    if t.length > 1 ∧ (headerTexts t).any (fun s => pyIn "mule" s || pyIn "runtime" s) then
      (t.drop 1).filterMap compatRow
    else [])

/-- The sort key
`[int(v) for v in x['mule_version'].split('.')] if '.' in x['mule_version'] else [0]`;
`none` models the `ValueError` raised by `int` on a non-numeric component. -/
def sortKey (mule_version : String) : Option (List Int) :=
  if mule_version.data.contains '.' then mapOption pyInt (splitDot mule_version.data)
  else some [0]

/-- The decorated pairs (Python `sorted` with a `key` computes every key
before comparing, so one failing key fails the whole sort). -/
def dwKeyed (data : List DWPair) : Option (List (List Int × DWPair)) :=
  mapOption (fun x => (sortKey x.mule_version).map (fun k => (k, x))) data

/-- The comparison of `sorted(..., reverse=True)`: descending by key. -/
def dwLe (a b : List Int × DWPair) : Bool := pyListLe b.1 a.1

/-- `sorted(compatibility_data, key=..., reverse=True)`; `none` models the
raised `ValueError`. -/
def sortPairs (data : List DWPair) : Option (List DWPair) :=
  (dwKeyed data).map (fun keyed => (sortB dwLe keyed).map (·.2))

/-- The JDK lookup for one pair: exact key, else the first key in insertion
order that `startswith` the mule version, else `[]`. -/
def lookupJdk (java_data : List (String × List Nat)) (mule_ver : String) : List Nat :=
  match dictGet java_data mule_ver with
  | some v => v
  | none =>
    match java_data.find? (fun kv => pyStartsWith kv.1 mule_ver) with
    | some kv => kv.2
    | none => []

/-- An element of `combined_data` / `recent_versions`. -/
structure DWEntry where
  mule_version : String
  dataweave_version : String
  jdk_versions : List Nat
deriving DecidableEq, Repr

/-- A per-version release-notes record. -/
structure RNEntry where
  breaking_changes : List String
  new_features : List String
  important_notes : List String
  release_notes_url : String
deriving DecidableEq, Repr

/-- The heading/paragraph scan of one release-notes page: collect sibling
blocks of headings containing `breaking` / `what's new` / `new features` /
`important` / `upgrade` (each block capped), fall back to warning paragraphs
when no breaking changes were found, and cap each list. -/
def scanReleaseSoup (rs : Soup) (url : String) : RNEntry :=
  let acc := rs.headingBlocks.foldl
    (fun (acc : List String × List String × List String) hb =>
      let ht := pyLower hb.1
      if pyIn "breaking" ht then (acc.1 ++ hb.2.take 2, acc.2.1, acc.2.2)
      else if pyIn "what\x27s new" ht || pyIn "new features" ht then
        (acc.1, acc.2.1 ++ hb.2.take 3, acc.2.2)
      else if pyIn "important" ht || pyIn "upgrade" ht then
        (acc.1, acc.2.1, acc.2.2 ++ hb.2.take 2)
      else acc)
    ([], [], [])
  let breaking :=
    if acc.1 = [] then
      rs.paragraphs.filter (fun p =>
        let t := pyLower p
        pyIn "warning:" t || pyIn "caution:" t || pyIn "deprecated" t)
    else acc.1
  { breaking_changes := breaking.take 3
    new_features := acc.2.1.take 5
    important_notes := acc.2.2.take 3
    release_notes_url := url }

/-- `release_notes_info`: for the top three recent entries, fetch the
templated release-notes page; a fetch failure is swallowed and that version
is simply skipped. -/
def releaseNotesInfo (fetch : String → Except String Soup) (recent : List DWEntry) :
    List (String × RNEntry) :=
  (recent.take 3).foldl
    (fun acc item =>
      let url := dataweaveReleaseNotesUrl item.dataweave_version
      match fetch url with
      | .ok rs => dictInsert item.dataweave_version (scanReleaseSoup rs url) acc
      | .error _ => acc)
    []

/-- The success payload of `_extract_dataweave_versions`. -/
structure DWInfo where
  recent_dataweave_versions : List DWEntry
  all_compatibility_data : List DWEntry
  release_notes : List (String × RNEntry)
  java_compatibility : List (String × List Nat)
  source_urls : List String
deriving DecidableEq, Repr

/-- `_extract_dataweave_versions(dataweave_soup, java_soup)`.  The `.error`
case models the `ValueError` raised by the sort key on a non-numeric dotted
component, which propagates out of the function (the calling tool turns it
into a `{"error": ...}` dict). -/
def extract_dataweave_versions (dataweave_soup java_soup : Soup)
    (fetch : String → Except String Soup) : Except Unit DWInfo :=
  let compat := compatData dataweave_soup.tables
  let java_data := extractJavaDataSimple java_soup
  match sortPairs compat with
  | none => .error ()
  | some sorted_data =>
    let combined := sorted_data.map (fun p =>
      DWEntry.mk p.mule_version p.dataweave_version (lookupJdk java_data p.mule_version))
    let recent := combined.take 5
    .ok { recent_dataweave_versions := recent
          all_compatibility_data := combined
          release_notes := releaseNotesInfo fetch recent
          java_compatibility := java_data
          source_urls := [MULESOFT_URLS_dataweave, MULESOFT_URLS_java_support] }

/-! ## Connector scraper (`_extract_connector_versions`) -/

/-- One entry of `connector_specific`. -/
structure ConnectorVersionEntry where
  connector_version : String
  mule_version : String
  jdk_versions : List Nat
  artifactId : String
  maven_artifact_id : String
  connector_name : String
deriving DecidableEq, Repr

/-- One entry of the general `connector_compatibility` list. -/
structure GeneralCompatEntry where
  mule_version : String
  jdk_versions : List Nat
  note : String
deriving DecidableEq, Repr

/-- The distinct dict shapes `_extract_connector_versions` returns. -/
inductive ConnResult where
  | specific (connector_specific : List ConnectorVersionEntry)
      (java_compatibility : List (String × List Nat)) (source_urls : List String)
  | noVersions (message artifactId connector_url connector_name : String)
      (java_compatibility : List (String × List Nat)) (source_urls : List String)
  | fetchError (error artifactId connector_url connector_name : String)
  | notFound (error artifactId : String) (attempted_variations : List String)
  | indexError (error artifactId : String)
  | general (connector_compatibility : List GeneralCompatEntry)
      (java_compatibility : List (String × List Nat)) (source_urls : List String)
deriving DecidableEq, Repr

/-- The fixed list of name variations tried against the release-notes
anchor texts. -/
def connectorVariations (artifactId : String) : List String :=
  [pyLower artifactId,
   pyLower artifactId ++ " connector",
   pyLower artifactId ++ " connector release notes",
   artifactId,
   artifactId ++ " Connector",
   artifactId ++ " Connector Release Notes",
   pyUpper artifactId ++ " Connector Release Notes",
   pyCapitalize artifactId ++ " Connector Release Notes"]

/-- Does any variation match a (lower-cased) anchor text: substring match,
or equality with the text after stripping a `" release notes"` suffix? -/
def linkMatches (vars : List String) (link_text : String) : Bool :=
  vars.any (fun v =>
    pyIn (pyLower v) link_text ||
    pyLower v = pyStrip (pyReplaceS " release notes" "" link_text))

/-- The first anchor of the release-notes index whose lower-cased text
matches a variation, as `(href, original text)`. -/
def findConnectorLink (idx : Soup) (vars : List String) : Option (String × String) :=
  (idx.links.find? (fun tl => linkMatches vars (pyLower tl.1))).map (fun tl => (tl.2, tl.1))

/-- The relative-link resolution rules for a matched connector href. -/
def resolveConnectorUrl (connector_link : String) : String :=
  if pyStartsWith connector_link "../../" then
    if pyIn "/release-notes/connector/" connector_link then
      "https://docs.mulesoft.com" ++ pyDropStr 5 connector_link
    else MULESOFT_URLS_connectors ++ pyDropStr 6 connector_link
  else if pyStartsWith connector_link "../" then
    MULESOFT_URLS_connectors ++ "introduction/" ++ pyDropStr 3 connector_link
  else if pyStartsWith connector_link "/" then
    "https://docs.mulesoft.com" ++ connector_link
  else if pyStartsWith connector_link "http" then connector_link
  else MULESOFT_URLS_connectors ++ "introduction/" ++ connector_link

/-- `actual_connector_name`: the link text with a `" Release Notes"` suffix
removed when present. -/
def actualConnectorName (connector_name : String) : String :=
  if pyIn " Release Notes" connector_name then
    pyReplaceS " Release Notes" "" connector_name
  else connector_name

/-- The compatibility tables of a connector page: tables with at least two
rows whose header texts contain both `"software"` and `"version"` (exact
list membership); each yields the last `Mule` row's version and the last
`JDK` row's parsed versions (`table_index`/`table_element` are recorded in
the source but never used afterwards). -/
def connCompatTables (tables : List Table) : List (String × List Nat) :=
  tables.filterMap (fun t =>
    if t.length ≥ 2 ∧ (headerTexts t).contains "software" ∧ (headerTexts t).contains "version" then
      some ((t.drop 1).foldl
        (fun (acc : String × List Nat) row =>
          match tdCells row with
          | c0 :: c1 :: _ =>
            let software := pyStrip c0.text
            let version_info := pyStrip c1.text
            if software = "Mule" then (version_info, acc.2)
            else if pyIn "OpenJDK" software || pyIn "JDK" software then
              (acc.1, parse_jdk_versions (some version_info))
            else acc
          | _ => acc)
        ("Unknown", []))
    else none)

/-- The derived Maven artifact id (the three explicit overrides coincide
with the general pattern, as in the source). -/
def mavenArtifactId (artifactId : String) : String :=
  if artifactId = "http" then "mule-http-connector"
  else if artifactId = "email" then "mule-email-connector"
  else if artifactId = "sockets" then "mule-sockets-connector"
  else "mule-" ++ artifactId ++ "-connector"

/-- Does a heading match
`.*(?:[Vv]ersion\s*)?[\d]+\.[\d]+(?:\.[\d]+)?.*`, i.e. contain a
version-like substring anywhere? -/
def headingVersionMatch (text : String) : Bool := (searchVersion text.data).isSome

/-- The `connector_versions` entries built from matching headings, all with
the default compatibility. -/
def connectorVersionEntries (headings : List String) (default_mule_version : String)
    (default_jdk_versions : List Nat) (artifactId connector_name : String) :
    List ConnectorVersionEntry :=
  (headings.filter headingVersionMatch).map (fun text =>
    { connector_version := extract_version_number text
      mule_version := default_mule_version
      jdk_versions := default_jdk_versions
      artifactId := artifactId
      maven_artifact_id := mavenArtifactId artifactId
      connector_name := connector_name })

/-- The minimal record of the raw-text fallback. -/
def simpleConnectorEntry (artifactId connector_name : String) (v : List Char) :
    ConnectorVersionEntry :=
  { connector_version := extract_version_number (String.mk v)
    mule_version := "Unknown"
    jdk_versions := []
    artifactId := artifactId
    maven_artifact_id := mavenArtifactId artifactId
    connector_name := connector_name }

/-- The processing of a fetched connector page: heading-derived entries if
any heading matched, else the raw-text scan capped at five, else the
structured "no version data" message. -/
def processConnectorPage (connector_soup : Soup) (artifactId connector_url connector_name : String)
    (java_data : List (String × List Nat)) : ConnResult :=
  let ct := connCompatTables connector_soup.tables
  let deflt := match ct with
    | [] => ("Unknown", ([] : List Nat))
    | d :: _ => d
  let connector_versions :=
    connectorVersionEntries (connector_soup.headingBlocks.map Prod.fst) deflt.1 deflt.2
      artifactId connector_name
  if connector_versions ≠ [] then
    .specific connector_versions java_data [connector_url, MULESOFT_URLS_java_support]
  else
    let version_matches := findAllVersions connector_soup.allText.data
    if version_matches ≠ [] then
      .specific ((version_matches.take 5).map (simpleConnectorEntry artifactId connector_name))
        java_data [connector_url, MULESOFT_URLS_java_support]
    else
      .noVersions ("Connector \x27" ++ artifactId ++ "\x27 found at " ++ connector_url ++
          ", but specific version compatibility information could not be extracted. Please check the connector documentation directly.")
        artifactId connector_url connector_name java_data
        [connector_url, MULESOFT_URLS_java_support]

/-- `_extract_connector_versions(connectors_soup, java_soup, artifactId)`.
`connectors_soup` is fetched by the calling tool but never queried here, as
in the source.  Fetch errors of the release-notes index and of the resolved
connector page become the corresponding structured error dicts. -/
def extract_connector_versions (connectors_soup java_soup : Soup) (artifactId : Option String)
    (fetch : String → Except String Soup) : ConnResult :=
  let java_data := extractJavaDataSimple java_soup
  match artifactId with
  | some aid =>
    match fetch MULESOFT_URLS_connector_release_notes with
    | .error e => .indexError ("Could not access connector release notes page: " ++ e) aid
    | .ok idx =>
      match findConnectorLink idx (connectorVariations aid) with
      | none =>
        .notFound ("Connector \x27" ++ aid ++
            "\x27 not found in the release notes. Please check the artifactId and try again.")
          aid (connectorVariations aid)
      | some (href, connector_name) =>
        let connector_url := resolveConnectorUrl href
        match fetch connector_url with
        | .error e =>
          .fetchError ("Could not fetch connector page for \x27" ++ aid ++ "\x27 at " ++
              connector_url ++ ": " ++ e)
            aid connector_url (actualConnectorName connector_name)
        | .ok connector_soup =>
          processConnectorPage connector_soup aid connector_url
            (actualConnectorName connector_name) java_data
  | none =>
    .general
      (java_data.map (fun kv =>
        { mule_version := kv.1
          jdk_versions := kv.2
          note := "General Mule runtime compatibility - check individual connector release notes for specific connector compatibility" }))
      java_data [MULESOFT_URLS_connectors, MULESOFT_URLS_java_support]

/-! ## The specification's own trimmed matcher (for refinement comparison)

Modelled from the spec: `isVersionLike(text)` is described as true iff
`text`, *trimmed*, matches `^\d+\.\d+`.  The source's `is_version_string`
does not trim, so the two are compared. -/

/-- Spec-side matcher: trim, then match `^\d+\.\d+`. -/
def specIsVersionLikeTrimmed (text : String) : Bool :=
  startsVersion (pyStripList text.data)

deriving instance DecidableEq for Except

/-! ## Concrete fixture pages and fetchers -/

/-- A page with no content at all. -/
def emptySoup : Soup := ⟨[], [], [], [], ""⟩

/-- A fetcher for which every request raises. -/
def fetchFail : String → Except String Soup := fun _ => .error "connection refused"

/-- A header cell. -/
def th (s : String) : Cell := ⟨true, s⟩

/-- A data cell. -/
def td (s : String) : Cell := ⟨false, s⟩

/-- A cadence page with a single accepted row that mentions neither `Edge`
nor `LTS`, so classification is empty and the fallback fires. -/
def rtFallbackSoup : Soup :=
  ⟨[[[th "Version", th "Release date", th "JDK"],
     [td "4.4.0", td "2024-01-01", td "17"]]], [], [], [], ""⟩

/-- The record the row-scan accepts from `rtFallbackSoup`. -/
def rtFallbackRecord : VersionRecord :=
  ⟨"4.4.0", "2024-01-01", [17], "17", "Unknown"⟩

/-- A DataWeave page whose accepted mule version has a dot but a non-numeric
component, so the sort key raises. -/
def dwBadKeySoup : Soup :=
  ⟨[[[th "Mule Runtime", th "DataWeave"],
     [td "4.4 Edge", td "2.4"]]], [], [], [], ""⟩

/-- A DataWeave page with two accepted rows with numeric versions. -/
def dwTwoRowsSoup : Soup :=
  ⟨[[[th "Mule Runtime", th "DataWeave"],
     [td "4.4", td "2.4"],
     [td "4.9", td "2.7"]]], [], [], [], ""⟩

/-- A DataWeave page listing the same compatibility row twice. -/
def dwDupSoup : Soup :=
  ⟨[[[th "Mule Runtime", th "DataWeave"],
     [td "4.4", td "2.4"],
     [td "4.4", td "2.4"]]], [], [], [], ""⟩

/-- A DataWeave page with a single accepted row `4.4 / 2.4`. -/
def dwOneRowSoup : Soup :=
  ⟨[[[th "Mule Runtime", th "DataWeave"],
     [td "4.4", td "2.4"]]], [], [], [], ""⟩

/-- A fetcher that serves the DataWeave `2.4` release-notes page (so that
page is really consulted) and raises on everything else. -/
def fetchServesRN24 : String → Except String Soup := fun u =>
  if u = dataweaveReleaseNotesUrl "2.4" then .ok emptySoup else .error "unreachable"

/-- A release-notes index page with one anchor for the HTTP connector. -/
def connIndexSoup : Soup :=
  ⟨[], [], [], [("HTTP Connector Release Notes", "/release-notes/connector/connector-http")], ""⟩

/-- A connector page with no tables and no headings but a version-like
substring in its raw text. -/
def connPlainPageSoup : Soup := ⟨[], [], [], [], "Some text 1.2.3 more"⟩

/-- The resolved URL of the fixture connector link. -/
def connHttpUrl : String := "https://docs.mulesoft.com/release-notes/connector/connector-http"

/-- A fetcher serving the release-notes index and the fixture connector
page. -/
def fetchConnHttp : String → Except String Soup := fun u =>
  if u = MULESOFT_URLS_connector_release_notes then .ok connIndexSoup
  else if u = connHttpUrl then .ok connPlainPageSoup
  else .error "unreachable"

/-- The value `extract_dataweave_versions` returns on `dwTwoRowsSoup`. -/
def dwTwoInfo : DWInfo :=
  { recent_dataweave_versions := [⟨"4.9", "2.7", []⟩, ⟨"4.4", "2.4", []⟩]
    all_compatibility_data := [⟨"4.9", "2.7", []⟩, ⟨"4.4", "2.4", []⟩]
    release_notes := []
    java_compatibility := []
    source_urls := [MULESOFT_URLS_dataweave, MULESOFT_URLS_java_support] }

/-- The value `extract_dataweave_versions` returns on `dwDupSoup`: the
duplicated source row appears twice. -/
def dwDupInfo : DWInfo :=
  { recent_dataweave_versions := [⟨"4.4", "2.4", []⟩, ⟨"4.4", "2.4", []⟩]
    all_compatibility_data := [⟨"4.4", "2.4", []⟩, ⟨"4.4", "2.4", []⟩]
    release_notes := []
    java_compatibility := []
    source_urls := [MULESOFT_URLS_dataweave, MULESOFT_URLS_java_support] }

/-- The value `extract_dataweave_versions` returns on `dwOneRowSoup` with
`fetchServesRN24`: the `2.4` release-notes page is fetched and recorded in
`release_notes`, but not in `source_urls`. -/
def dwRNInfo : DWInfo :=
  { recent_dataweave_versions := [⟨"4.4", "2.4", []⟩]
    all_compatibility_data := [⟨"4.4", "2.4", []⟩]
    release_notes := [("2.4", ⟨[], [], [], dataweaveReleaseNotesUrl "2.4"⟩)]
    java_compatibility := []
    source_urls := [MULESOFT_URLS_dataweave, MULESOFT_URLS_java_support] }

/-! ## Generic list lemmas -/

theorem takeWhile_append_nil {α : Type} (p : α → Bool) (xs ys : List α)
    (h : ys.takeWhile p = []) : (xs ++ ys).takeWhile p = xs.takeWhile p := by
  induction xs with
  | nil => simpa using h
  | cons a xs ih =>
    rw [List.cons_append, List.takeWhile_cons, List.takeWhile_cons]
    by_cases hp : p a = true
    · simp [hp, ih]
    · simp [hp]

theorem dropWhile_append_split {α : Type} (p : α → Bool) (xs ys : List α)
    (h : ys.takeWhile p = []) : (xs ++ ys).dropWhile p = xs.dropWhile p ++ ys := by
  induction xs with
  | nil =>
    rcases ys with _ | ⟨y, ys⟩
    · rfl
    · rw [List.takeWhile_cons] at h
      by_cases hp : p y = true
      · simp [hp] at h
      · simp [List.dropWhile_cons, hp]
  | cons a xs ih =>
    rw [List.cons_append, List.dropWhile_cons, List.dropWhile_cons]
    by_cases hp : p a = true
    · simp [hp, ih]
    · simp [hp]

theorem takeWhile_all_append {α : Type} (p : α → Bool) (xs ys : List α)
    (hall : ∀ x ∈ xs, p x = true) (h : ys.takeWhile p = []) :
    (xs ++ ys).takeWhile p = xs := by
  rw [takeWhile_append_nil p xs ys h, List.takeWhile_eq_self_iff.mpr hall]

theorem dropWhile_all_append {α : Type} (p : α → Bool) (xs ys : List α)
    (hall : ∀ x ∈ xs, p x = true) (h : ys.takeWhile p = []) :
    (xs ++ ys).dropWhile p = ys := by
  rw [dropWhile_append_split p xs ys h, List.dropWhile_eq_nil_iff.mpr hall, List.nil_append]

/-! ## Character lemmas -/

theorem pyIsSpace_not_digit {c : Char} (h : pyIsSpace c = true) : c.isDigit = false := by
  simp only [pyIsSpace, Bool.or_eq_true, decide_eq_true_eq] at h
  rcases h with ((((h | h) | h) | h) | h) | h <;> subst h <;> decide

theorem isDigit_not_space {c : Char} (h : c.isDigit = true) : pyIsSpace c = false := by
  rcases hs : pyIsSpace c with _ | _
  · rfl
  · rw [pyIsSpace_not_digit hs] at h; cases h

theorem dot_not_digit : ('.' : Char).isDigit = false := by decide

/-! ## C5: `is_version_string` -/

/-- The `takeWhile`/`dropWhile` split of a list made of a digit run followed
by a dot. -/
theorem digits_dot_span (d1 z : List Char) (hd : ∀ x ∈ d1, x.isDigit = true) :
    (d1 ++ '.' :: z).takeWhile Char.isDigit = d1 ∧
    (d1 ++ '.' :: z).dropWhile Char.isDigit = '.' :: z := by
  have hz : ('.' :: z).takeWhile Char.isDigit = [] := by
    rw [List.takeWhile_cons, dot_not_digit]; simp
  exact ⟨takeWhile_all_append _ _ _ hd hz, dropWhile_all_append _ _ _ hd hz⟩

/-- Characterisation of `startsVersion`: the regex-semantics of
`^\d+\.\d+`. -/
theorem startsVersion_iff (l : List Char) :
    startsVersion l = true ↔
      ∃ d1 c rest, l = d1 ++ '.' :: c :: rest ∧ d1 ≠ [] ∧
        (∀ x ∈ d1, x.isDigit = true) ∧ c.isDigit = true := by
  constructor
  · intro h
    unfold startsVersion at h
    rcases hr : l.dropWhile Char.isDigit with _ | ⟨c0, r⟩
    · rw [hr] at h; simp at h
    · rcases r with _ | ⟨c, rest⟩
      · rw [hr] at h; simp at h
      · rw [hr] at h
        simp only [Bool.and_eq_true, decide_eq_true_eq, Bool.not_eq_true',
          List.isEmpty_eq_false] at h
        obtain ⟨⟨hc0, hne⟩, hc⟩ := h
        subst hc0
        refine ⟨l.takeWhile Char.isDigit, c, rest, ?_, hne, ?_, hc⟩
        · rw [← hr, List.takeWhile_append_dropWhile]
        · exact fun x hx => List.mem_takeWhile_imp hx
  · rintro ⟨d1, c, rest, rfl, hne, hall, hc⟩
    obtain ⟨ht, hd⟩ := digits_dot_span d1 (c :: rest) hall
    unfold startsVersion
    rw [hd, ht]
    simp [hne, hc]

/-- C5, counterexample: the claim says `is_version_string` is true iff the
*trimmed* text matches `^\d+\.\d+`; on `" 4.4"` the trimmed text matches but
the source performs no trimming and returns `false`. -/
theorem claim5_trimming_counterexample :
    is_version_string " 4.4" = false ∧ specIsVersionLikeTrimmed " 4.4" = true ∧
      is_version_string " 4.4" ≠ specIsVersionLikeTrimmed " 4.4" := by
  refine ⟨by decide, by decide, by decide⟩

/-- C5, amended: `is_version_string(text)` is true iff `text` itself (not
trimmed) matches `^\d+\.\d+`, i.e. starts with a non-empty digit run, a dot
and a digit; in particular it accepts `"4.4.0"` and rejects `"Edge"` and
`"4"`, and never accepts a plain integer or non-numeric text. -/
theorem claim5_is_version_string_amended :
    (∀ s : String, is_version_string s = true ↔
      ∃ d1 c rest, s.data = d1 ++ '.' :: c :: rest ∧ d1 ≠ [] ∧
        (∀ x ∈ d1, x.isDigit = true) ∧ c.isDigit = true) ∧
    is_version_string "4.4.0" = true ∧ is_version_string "Edge" = false ∧
    is_version_string "4" = false ∧ is_version_string "123" = false := by
  exact ⟨fun s => startsVersion_iff s.data, by decide, by decide, by decide, by decide⟩

/-- C5, witness for the amended theorem: the characterisation applied at a
concrete decomposition. -/
theorem claim5_amended_witness : is_version_string "10.2" = true :=
  (claim5_is_version_string_amended.1 "10.2").mpr
    ⟨['1', '0'], '2', [], by decide, by decide, by decide, by decide⟩

/-! ## C1: runtime scraper fetch failures -/

/-- C1: if fetching either primary page fails, `_scrape_mulesoft_versions`
returns the `error` dict with a non-empty message (and, the model being a
total function, no exception escapes). -/
theorem claim1_scraper_error_on_fetch_failure (fetch : String → Except String Soup)
    (h : (fetch MULESOFT_URLS_lts_edge_release_cadence).isOk = false ∨
         (fetch MULESOFT_URLS_java_support).isOk = false) :
    ∃ msg, scrape_mulesoft_versions fetch = .error msg ∧ 0 < msg.length := by
  rcases h1 : fetch MULESOFT_URLS_lts_edge_release_cadence with e | s1
  · refine ⟨_, by rw [scrape_mulesoft_versions, h1], ?_⟩
    rw [String.length_append]
    have : ("Failed to fetch MuleSoft documentation: " : String).length = 40 := by decide
    omega
  · rcases h2 : fetch MULESOFT_URLS_java_support with e | s2
    · refine ⟨_, by rw [scrape_mulesoft_versions, h1, h2], ?_⟩
      rw [String.length_append]
      have : ("Failed to fetch MuleSoft documentation: " : String).length = 40 := by decide
      omega
    · rw [h1, h2] at h
      simp [Except.isOk, Except.toBool] at h

/-- C1, witness: a fetcher for which every request raises. -/
theorem claim1_witness :
    ∃ msg, scrape_mulesoft_versions fetchFail = .error msg ∧ 0 < msg.length :=
  claim1_scraper_error_on_fetch_failure fetchFail (Or.inl (by decide))

/-! ## C4 and C9: the Edge/LTS classification fallback -/

/-- Shared core: the result of `extract_versions_from_tables` when the
fallback condition holds. -/
theorem fallback_taken_eq (lts_edge_soup java_soup : Soup)
    (hE : edgeClassified (versionData lts_edge_soup.tables) = [])
    (hL : ltsClassified (versionData lts_edge_soup.tables) = [])
    (hvd : versionData lts_edge_soup.tables ≠ []) :
    (extract_versions_from_tables lts_edge_soup java_soup).edge_versions
      = ((versionData lts_edge_soup.tables).take 3).map RowEntry.full ∧
    ∃ x, (versionData lts_edge_soup.tables).getLast? = some x ∧
      (extract_versions_from_tables lts_edge_soup java_soup).lts_versions
        = [RowEntry.full x] := by
  have hsome : (versionData lts_edge_soup.tables).getLast?.isSome = true :=
    List.getLast?_isSome.mpr hvd
  rcases hx : (versionData lts_edge_soup.tables).getLast? with _ | x
  · rw [hx] at hsome; cases hsome
  · refine ⟨?_, x, rfl, ?_⟩ <;>
      simp [extract_versions_from_tables, hE, hL, hvd, hx]

/-- C4: when classification finds no Edge and no LTS rows but some rows were
accepted, the fallback makes the first three accepted rows the Edge list and
the last accepted row the sole LTS entry; when anything was classified, the
fallback is not taken and the classified lists are returned unchanged. -/
theorem claim4_classification_fallback (lts_edge_soup java_soup : Soup) :
    (edgeClassified (versionData lts_edge_soup.tables) = [] ∧
     ltsClassified (versionData lts_edge_soup.tables) = [] ∧
     versionData lts_edge_soup.tables ≠ [] →
      (extract_versions_from_tables lts_edge_soup java_soup).edge_versions
        = ((versionData lts_edge_soup.tables).take 3).map RowEntry.full ∧
      ∃ x, (versionData lts_edge_soup.tables).getLast? = some x ∧
        (extract_versions_from_tables lts_edge_soup java_soup).lts_versions
          = [RowEntry.full x]) ∧
    (edgeClassified (versionData lts_edge_soup.tables) ≠ [] ∨
     ltsClassified (versionData lts_edge_soup.tables) ≠ [] →
      (extract_versions_from_tables lts_edge_soup java_soup).edge_versions
        = edgeClassified (versionData lts_edge_soup.tables) ∧
      (extract_versions_from_tables lts_edge_soup java_soup).lts_versions
        = ltsClassified (versionData lts_edge_soup.tables)) := by
  constructor
  · rintro ⟨hE, hL, hvd⟩
    exact fallback_taken_eq lts_edge_soup java_soup hE hL hvd
  · intro h
    rcases h with hE | hL
    · exact ⟨by simp [extract_versions_from_tables, hE],
        by simp [extract_versions_from_tables, hE]⟩
    · exact ⟨by simp [extract_versions_from_tables, hL],
        by simp [extract_versions_from_tables, hL]⟩

/-- C4, witness: a cadence page with one accepted unclassified row takes the
fallback. -/
theorem claim4_witness :
    (extract_versions_from_tables rtFallbackSoup emptySoup).edge_versions
      = ((versionData rtFallbackSoup.tables).take 3).map RowEntry.full :=
  ((claim4_classification_fallback rtFallbackSoup emptySoup).1
    ⟨by decide, by decide, by decide⟩).1

/-- C9: when the fallback fires with at most three accepted rows, the last
accepted record is in the Edge list and is also the sole LTS entry; with
exactly one accepted row the two lists are the same singleton. -/
theorem claim9_fallback_overlap (lts_edge_soup java_soup : Soup) (x : VersionRecord)
    (hE : edgeClassified (versionData lts_edge_soup.tables) = [])
    (hL : ltsClassified (versionData lts_edge_soup.tables) = [])
    (hx : (versionData lts_edge_soup.tables).getLast? = some x)
    (hlen : (versionData lts_edge_soup.tables).length ≤ 3) :
    RowEntry.full x ∈ (extract_versions_from_tables lts_edge_soup java_soup).edge_versions ∧
    (extract_versions_from_tables lts_edge_soup java_soup).lts_versions = [RowEntry.full x] ∧
    ((versionData lts_edge_soup.tables).length = 1 →
      (extract_versions_from_tables lts_edge_soup java_soup).edge_versions
        = [RowEntry.full x]) := by
  have hvd : versionData lts_edge_soup.tables ≠ [] := by
    intro hnil
    rw [hnil] at hx
    cases hx
  obtain ⟨hedge, y, hy, hlts⟩ := fallback_taken_eq lts_edge_soup java_soup hE hL hvd
  have hxy : y = x := by rw [hx] at hy; cases hy; rfl
  subst hxy
  have htake : (versionData lts_edge_soup.tables).take 3 = versionData lts_edge_soup.tables :=
    List.take_of_length_le hlen
  have hmem : y ∈ versionData lts_edge_soup.tables := by
    obtain ⟨ys, hys⟩ := List.getLast?_eq_some_iff.mp hx
    rw [hys]
    exact List.mem_append_right ys (List.mem_singleton.mpr rfl)
  refine ⟨?_, hlts, ?_⟩
  · rw [hedge, htake]
    exact List.mem_map_of_mem RowEntry.full hmem
  · intro hone
    obtain ⟨a, ha⟩ := List.length_eq_one.mp hone
    have hya : y = a := by
      rw [ha] at hx
      cases hx
      rfl
    rw [hedge, htake, ha, hya]
    rfl

/-- C9, witness: the fallback page with a single accepted row. -/
theorem claim9_witness :
    RowEntry.full rtFallbackRecord
      ∈ (extract_versions_from_tables rtFallbackSoup emptySoup).edge_versions :=
  (claim9_fallback_overlap rtFallbackSoup emptySoup rtFallbackRecord
    (by decide) (by decide) (by decide) (by decide)).1

/-! ## C6: `parse_jdk_versions` extracts the digit runs of the original text

The word replacement `replace("and", ",")` and the trimming `strip()` never
touch a digit and never make two digit runs adjacent, so the digit runs of
the processed string are exactly those of the input. -/

theorem digitRuns_cons_nondigit {c : Char} (l : List Char) (h : c.isDigit = false) :
    digitRuns (c :: l) = digitRuns l := by
  cases l <;> simp [digitRuns, h]

theorem digitRuns_cons_digit :
    ∀ (l : List Char) (c : Char), c.isDigit = true →
      digitRuns (c :: l)
        = (c :: l.takeWhile Char.isDigit) :: digitRuns (l.dropWhile Char.isDigit) := by
  intro l
  induction l with
  | nil => intro c h; simp [digitRuns, h]
  | cons d t ih =>
    intro c h
    rw [List.takeWhile_cons, List.dropWhile_cons]
    by_cases hd : d.isDigit = true
    · rw [if_pos hd, if_pos hd, digitRuns, if_pos h]
      simp only [hd, if_true]
      rw [ih d hd]
    · have hd' : d.isDigit = false := by simpa using hd
      rw [if_neg (by simp [hd']), if_neg (by simp [hd']), digitRuns, if_pos h]
      simp only [hd', Bool.false_eq_true, if_false]

theorem digitRuns_nondigit_front (p l : List Char) (hp : ∀ c ∈ p, c.isDigit = false) :
    digitRuns (p ++ l) = digitRuns l := by
  induction p with
  | nil => rfl
  | cons c p ih =>
    rw [List.cons_append, digitRuns_cons_nondigit _ (hp c (List.mem_cons_self c p))]
    exact ih (fun x hx => hp x (List.mem_cons_of_mem c hx))

theorem digitRuns_nil_of_nondigit (l : List Char) (h : ∀ c ∈ l, c.isDigit = false) :
    digitRuns l = [] := by
  have := digitRuns_nondigit_front l [] h
  rwa [List.append_nil] at this

theorem pyReplaceAux_fuel_congr (pat repl : List Char) :
    ∀ (f1 f2 : Nat) (l : List Char), l.length ≤ f1 → l.length ≤ f2 →
      pyReplaceAux pat repl f1 l = pyReplaceAux pat repl f2 l := by
  intro f1
  induction f1 with
  | zero =>
    intro f2 l h1 h2
    have : l = [] := List.length_eq_zero.mp (Nat.le_zero.mp h1)
    subst this
    cases f2 <;> rfl
  | succ f1 ih =>
    intro f2 l h1 h2
    rcases l with _ | ⟨c, rest⟩
    · cases f2 <;> rfl
    · rcases f2 with _ | f2
      · simp at h2
      · simp only [pyReplaceAux]
        by_cases hm : pat.isPrefixOf (c :: rest) = true ∧ pat ≠ []
        · rw [if_pos hm, if_pos hm]
          have hlen : (List.drop (pat.length - 1) rest).length ≤ rest.length := by
            rw [List.length_drop]; omega
          simp only [List.length_cons] at h1 h2
          rw [ih f2 _ (by omega) (by omega)]
        · rw [if_neg hm, if_neg hm]
          simp only [List.length_cons] at h1 h2
          rw [ih f2 rest (by omega) (by omega)]

theorem pyReplace_cons_match (pat repl : List Char) (c : Char) (rest : List Char)
    (h : pat.isPrefixOf (c :: rest) = true ∧ pat ≠ []) :
    pyReplace pat repl (c :: rest)
      = repl ++ pyReplace pat repl (List.drop (pat.length - 1) rest) := by
  show pyReplaceAux pat repl (rest.length + 1) (c :: rest) = _
  simp only [pyReplaceAux, if_pos h]
  rw [pyReplaceAux_fuel_congr pat repl rest.length (List.drop (pat.length - 1) rest).length _
    (by rw [List.length_drop]; omega) le_rfl]
  rfl

theorem pyReplace_cons_nomatch (pat repl : List Char) (c : Char) (rest : List Char)
    (h : ¬(pat.isPrefixOf (c :: rest) = true ∧ pat ≠ [])) :
    pyReplace pat repl (c :: rest) = c :: pyReplace pat repl rest := by
  show pyReplaceAux pat repl (rest.length + 1) (c :: rest) = _
  simp only [pyReplaceAux, if_neg h]
  rfl

/-- Replacing a pattern that starts with a non-digit by a non-empty
replacement made of non-digits commutes with the digit span. -/
theorem pyReplace_span (pat repl : List Char) (p0 : Char) (pr : List Char)
    (hpat : pat = p0 :: pr) (hp0 : p0.isDigit = false)
    (r0 : Char) (rr : List Char) (hrepl : repl = r0 :: rr) (hr0 : r0.isDigit = false) :
    ∀ l : List Char,
      (pyReplace pat repl l).takeWhile Char.isDigit = l.takeWhile Char.isDigit ∧
      (pyReplace pat repl l).dropWhile Char.isDigit
        = pyReplace pat repl (l.dropWhile Char.isDigit) := by
  intro l
  induction l with
  | nil => exact ⟨rfl, rfl⟩
  | cons c rest ih =>
    by_cases hm : pat.isPrefixOf (c :: rest) = true ∧ pat ≠ []
    · have hc : c = p0 := by
        have := List.isPrefixOf_iff_prefix.mp hm.1
        rw [hpat] at this
        obtain ⟨t, ht⟩ := this
        rw [List.cons_append] at ht
        exact (List.cons.injEq _ _ _ _ ▸ ht).1.symm
      have hcnd : c.isDigit = false := hc ▸ hp0
      rw [pyReplace_cons_match pat repl c rest hm, hrepl]
      constructor
      · rw [List.cons_append, List.takeWhile_cons, hr0]
        simp [List.takeWhile_cons, hcnd]
      · rw [List.dropWhile_cons, hcnd, List.cons_append, List.dropWhile_cons, hr0]
        simp only [Bool.false_eq_true, if_false]
        rw [← List.cons_append, ← hrepl, ← pyReplace_cons_match pat repl c rest hm]
    · rw [pyReplace_cons_nomatch pat repl c rest hm]
      by_cases hc : c.isDigit = true
      · constructor
        · rw [List.takeWhile_cons, List.takeWhile_cons, hc]
          simp only [if_true]
          rw [ih.1]
        · rw [List.dropWhile_cons, List.dropWhile_cons, hc]
          simp only [if_true]
          exact ih.2
      · simp only [Bool.not_eq_true] at hc
        constructor
        · rw [List.takeWhile_cons, List.takeWhile_cons, hc]
          simp
        · rw [List.dropWhile_cons, List.dropWhile_cons, hc]
          simp only [Bool.false_eq_true, if_false]
          rw [pyReplace_cons_nomatch pat repl c rest hm]

/-- `str.replace` with an all-non-digit pattern and a non-empty
all-non-digit replacement preserves the digit runs. -/
theorem digitRuns_pyReplace (pat repl : List Char) (p0 : Char) (pr : List Char)
    (hpat : pat = p0 :: pr) (hpall : ∀ c ∈ pat, c.isDigit = false)
    (r0 : Char) (rr : List Char) (hrepl : repl = r0 :: rr)
    (hrall : ∀ c ∈ repl, c.isDigit = false) :
    ∀ l : List Char, digitRuns (pyReplace pat repl l) = digitRuns l := by
  have hp0 : p0.isDigit = false := hpall p0 (hpat ▸ List.mem_cons_self p0 pr)
  have hr0 : r0.isDigit = false := hrall r0 (hrepl ▸ List.mem_cons_self r0 rr)
  suffices h : ∀ (n : Nat) (l : List Char), l.length = n →
      digitRuns (pyReplace pat repl l) = digitRuns l by
    intro l
    exact h l.length l rfl
  intro n
  induction n using Nat.strong_induction_on with
  | _ n ih =>
    intro l hn
    rcases l with _ | ⟨c, rest⟩
    · rfl
    · subst hn
      by_cases hm : pat.isPrefixOf (c :: rest) = true ∧ pat ≠ []
      · rw [pyReplace_cons_match pat repl c rest hm]
        rw [digitRuns_nondigit_front repl _ hrall]
        rw [ih (List.drop (pat.length - 1) rest).length
            (by simp only [List.length_cons, List.length_drop]; omega) _ rfl]
        have hdecomp : pat ++ List.drop pat.length (c :: rest) = c :: rest :=
          List.prefix_iff_eq_append.mp (List.isPrefixOf_iff_prefix.mp hm.1)
        have hdrop : List.drop pat.length (c :: rest) = List.drop (pat.length - 1) rest := by
          rw [hpat]
          simp only [List.length_cons]
          rw [Nat.add_sub_cancel, List.drop_succ_cons]
        rw [← hdrop]
        conv_rhs => rw [← hdecomp]
        rw [digitRuns_nondigit_front pat _ hpall]
      · rw [pyReplace_cons_nomatch pat repl c rest hm]
        by_cases hc : c.isDigit = true
        · rw [digitRuns_cons_digit _ c hc, digitRuns_cons_digit _ c hc]
          rw [(pyReplace_span pat repl p0 pr hpat hp0 r0 rr hrepl hr0 rest).1,
              (pyReplace_span pat repl p0 pr hpat hp0 r0 rr hrepl hr0 rest).2]
          rw [ih (rest.dropWhile Char.isDigit).length
              (by
                have := (List.dropWhile_sublist (l := rest) Char.isDigit).length_le
                simp only [List.length_cons]
                omega) _ rfl]
        · simp only [Bool.not_eq_true] at hc
          rw [digitRuns_cons_nondigit _ hc, digitRuns_cons_nondigit _ hc]
          exact ih rest.length (by simp only [List.length_cons]; omega) rest rfl

theorem digitRuns_dropWhile_space (l : List Char) :
    digitRuns (l.dropWhile pyIsSpace) = digitRuns l := by
  induction l with
  | nil => rfl
  | cons c rest ih =>
    rw [List.dropWhile_cons]
    by_cases hc : pyIsSpace c = true
    · rw [if_pos hc, ih, digitRuns_cons_nondigit _ (pyIsSpace_not_digit hc)]
    · rw [if_neg hc]

theorem digitRuns_append_spaces (l sp : List Char) (hsp : ∀ c ∈ sp, pyIsSpace c = true) :
    digitRuns (l ++ sp) = digitRuns l := by
  have hspt : sp.takeWhile Char.isDigit = [] := by
    rcases sp with _ | ⟨s0, st⟩
    · rfl
    · rw [List.takeWhile_cons, pyIsSpace_not_digit (hsp s0 (List.mem_cons_self s0 st))]
      simp
  suffices h : ∀ (n : Nat) (l : List Char), l.length = n →
      digitRuns (l ++ sp) = digitRuns l by
    exact h l.length l rfl
  intro n
  induction n using Nat.strong_induction_on with
  | _ n ih =>
    intro l hn
    rcases l with _ | ⟨c, rest⟩
    · exact digitRuns_nil_of_nondigit sp (fun c hc => pyIsSpace_not_digit (hsp c hc))
    · subst hn
      rw [List.cons_append]
      by_cases hc : c.isDigit = true
      · rw [digitRuns_cons_digit _ c hc, digitRuns_cons_digit _ c hc,
          takeWhile_append_nil _ _ _ hspt, dropWhile_append_split _ _ _ hspt,
          ih (rest.dropWhile Char.isDigit).length
            (by
              have := (List.dropWhile_sublist (l := rest) Char.isDigit).length_le
              simp only [List.length_cons]
              omega) _ rfl]
      · simp only [Bool.not_eq_true] at hc
        rw [digitRuns_cons_nondigit _ hc, digitRuns_cons_nondigit _ hc]
        exact ih rest.length (by simp only [List.length_cons]; omega) rest rfl

theorem digitRuns_pyStripList (l : List Char) :
    digitRuns (pyStripList l) = digitRuns l := by
  unfold pyStripList
  rw [← digitRuns_dropWhile_space l]
  set m := l.dropWhile pyIsSpace with hm
  have hdecomp : m = (m.reverse.dropWhile pyIsSpace).reverse
      ++ (m.reverse.takeWhile pyIsSpace).reverse := by
    conv_lhs => rw [← List.reverse_reverse m]
    conv_lhs => rw [← List.takeWhile_append_dropWhile (p := pyIsSpace) (l := m.reverse)]
    rw [List.reverse_append]
  have hsp : ∀ c ∈ (m.reverse.takeWhile pyIsSpace).reverse, pyIsSpace c = true := by
    intro c hc
    exact List.mem_takeWhile_imp (List.mem_reverse.mp hc)
  conv_rhs => rw [hdecomp]
  rw [digitRuns_append_spaces _ _ hsp]

/-- C6: `parse_jdk_versions` returns exactly the maximal digit runs of the
input, in order, as integers, and `[]` on empty or missing input; in
particular on `"8, 11, and 17"`, `""` and `"8 and 11"`. -/
theorem claim6_parse_jdk_versions :
    (∀ s : String, parse_jdk_versions (some s) = (digitRuns s.data).map digitsToNat) ∧
    parse_jdk_versions none = [] ∧
    parse_jdk_versions (some "8, 11, and 17") = [8, 11, 17] ∧
    parse_jdk_versions (some "") = [] ∧
    parse_jdk_versions (some "8 and 11") = [8, 11] := by
  refine ⟨?_, rfl, by decide, rfl, by decide⟩
  intro s
  by_cases hs : s = ""
  · subst hs; rfl
  · simp only [parse_jdk_versions, if_neg hs]
    rw [digitRuns_pyStripList,
      digitRuns_pyReplace "and".data ",".data 'a' ['n', 'd'] rfl (by decide) ',' [] rfl
        (by decide)]

/-! ## C10: `extract_version_number` returns `""` or a version-like string

A successful regex match is `[Vv]ersion? + whitespace? + digits.digits(.digits)?`;
removing the words and stripping leaves exactly the numeric part. -/

theorem matchNum_shape (l m : List Char) (h : matchNum l = some m) :
    ∃ d1 d2 t, m = d1 ++ '.' :: d2 ++ t ∧ d1 ≠ [] ∧ (∀ x ∈ d1, x.isDigit = true) ∧
      d2 ≠ [] ∧ (∀ x ∈ d2, x.isDigit = true) ∧
      (t = [] ∨ ∃ d3, t = '.' :: d3 ∧ (∀ x ∈ d3, x.isDigit = true)) := by
  simp only [matchNum] at h
  split at h
  case h_2 => cases h
  case h_1 c0 r2 heq =>
    split at h
    case isFalse => cases h
    case isTrue hc =>
      split at h
      case isTrue => cases h
      case isFalse hd2 =>
        split at h
        case h_2 =>
          cases h
          exact ⟨_, _, [], by simp, hc.2,
            fun x hx => List.mem_takeWhile_imp hx, hd2,
            fun x hx => List.mem_takeWhile_imp hx, Or.inl rfl⟩
        case h_1 c1 r4 heq2 =>
          split at h
          case isFalse =>
            cases h
            exact ⟨_, _, [], by simp, hc.2,
              fun x hx => List.mem_takeWhile_imp hx, hd2,
              fun x hx => List.mem_takeWhile_imp hx, Or.inl rfl⟩
          case isTrue hc1 =>
            split at h
            case isTrue =>
              cases h
              exact ⟨_, _, [], by simp, hc.2,
                fun x hx => List.mem_takeWhile_imp hx, hd2,
                fun x hx => List.mem_takeWhile_imp hx, Or.inl rfl⟩
            case isFalse hd3 =>
              cases h
              exact ⟨_, _, '.' :: r4.takeWhile Char.isDigit, rfl, hc.2,
                fun x hx => List.mem_takeWhile_imp hx, hd2,
                fun x hx => List.mem_takeWhile_imp hx,
                Or.inr ⟨_, rfl, fun x hx => List.mem_takeWhile_imp hx⟩⟩

theorem matchNum_digitdot (l m : List Char) (h : matchNum l = some m) :
    ∀ c ∈ m, c.isDigit = true ∨ c = '.' := by
  obtain ⟨d1, d2, t, rfl, _, hd1, _, hd2, ht⟩ := matchNum_shape l m h
  intro c hc
  rw [List.append_assoc, List.mem_append] at hc
  rcases hc with hc | hc
  · exact Or.inl (hd1 c hc)
  · rw [List.cons_append, List.mem_cons] at hc
    rcases hc with rfl | hc
    · exact Or.inr rfl
    · rw [List.mem_append] at hc
      rcases hc with hc | hc
      · exact Or.inl (hd2 c hc)
      · rcases ht with rfl | ⟨d3, rfl, hd3⟩
        · cases hc
        · rw [List.mem_cons] at hc
          rcases hc with rfl | hc
          · exact Or.inr rfl
          · exact Or.inl (hd3 c hc)

theorem matchNum_startsVersion (l m : List Char) (h : matchNum l = some m) :
    startsVersion m = true := by
  obtain ⟨d1, d2, t, rfl, hne1, hd1, hne2, hd2, _⟩ := matchNum_shape l m h
  rcases d2 with _ | ⟨e, es⟩
  · cases hne2 rfl
  · exact (startsVersion_iff _).mpr ⟨d1, e, es ++ t,
      by rw [List.append_assoc, List.cons_append, List.cons_append], hne1, hd1,
      hd2 e (List.mem_cons_self e es)⟩

theorem digitdot_not_space {c : Char} (h : c.isDigit = true ∨ c = '.') :
    pyIsSpace c = false := by
  rcases h with h | rfl
  · exact isDigit_not_space h
  · decide

theorem digitdot_ne_V {c : Char} (h : c.isDigit = true ∨ c = '.') : c ≠ 'V' := by
  rcases h with h | rfl
  · intro heq; rw [heq] at h; cases h
  · decide

theorem digitdot_ne_v {c : Char} (h : c.isDigit = true ∨ c = '.') : c ≠ 'v' := by
  rcases h with h | rfl
  · intro heq; rw [heq] at h; cases h
  · decide

theorem space_ne_V {c : Char} (h : pyIsSpace c = true) : c ≠ 'V' := by
  intro heq; rw [heq] at h; cases h

theorem space_ne_v {c : Char} (h : pyIsSpace c = true) : c ≠ 'v' := by
  intro heq; rw [heq] at h; cases h

theorem takeWhileSpace_nil_of_digitdot (l : List Char)
    (h : ∀ c ∈ l, c.isDigit = true ∨ c = '.') : l.takeWhile pyIsSpace = [] := by
  rcases l with _ | ⟨c, rest⟩
  · rfl
  · rw [List.takeWhile_cons, digitdot_not_space (h c (List.mem_cons_self c rest))]
    simp

theorem dropWhile_eq_self_of_takeWhile_nil {α : Type} (p : α → Bool) (l : List α)
    (h : l.takeWhile p = []) : l.dropWhile p = l := by
  rcases l with _ | ⟨c, rest⟩
  · rfl
  · rw [List.takeWhile_cons] at h
    rw [List.dropWhile_cons]
    by_cases hp : p c = true
    · rw [hp] at h; simp at h
    · simp [hp]

theorem pyStripList_eq_self (l : List Char) (h1 : l.takeWhile pyIsSpace = [])
    (h2 : l.reverse.takeWhile pyIsSpace = []) : pyStripList l = l := by
  unfold pyStripList
  rw [dropWhile_eq_self_of_takeWhile_nil _ _ h1,
    dropWhile_eq_self_of_takeWhile_nil _ _ h2, List.reverse_reverse]

theorem pyStripList_digitdot (m : List Char) (h : ∀ c ∈ m, c.isDigit = true ∨ c = '.') :
    pyStripList m = m :=
  pyStripList_eq_self m (takeWhileSpace_nil_of_digitdot m h)
    (takeWhileSpace_nil_of_digitdot m.reverse (fun c hc => h c (List.mem_reverse.mp hc)))

theorem pyReplace_id_of_not_mem (pat repl : List Char) (p0 : Char) (pr : List Char)
    (hpat : pat = p0 :: pr) (l : List Char) (h : ∀ c ∈ l, c ≠ p0) :
    pyReplace pat repl l = l := by
  induction l with
  | nil => rfl
  | cons c rest ih =>
    have hm : ¬(pat.isPrefixOf (c :: rest) = true ∧ pat ≠ []) := by
      rintro ⟨hpre, -⟩
      have := List.isPrefixOf_iff_prefix.mp hpre
      rw [hpat] at this
      obtain ⟨t, ht⟩ := this
      rw [List.cons_append] at ht
      exact h c (List.mem_cons_self c rest) ((List.cons.injEq _ _ _ _ ▸ ht).1.symm ▸ rfl)
    rw [pyReplace_cons_nomatch pat repl c rest hm,
      ih (fun x hx => h x (List.mem_cons_of_mem c hx))]

theorem pyReplace_strip_leading (pat repl : List Char) (p0 : Char) (pr : List Char)
    (hpat : pat = p0 :: pr) (z : List Char) :
    pyReplace pat repl (pat ++ z) = repl ++ pyReplace pat repl z := by
  subst hpat
  rw [List.cons_append, pyReplace_cons_match _ repl p0 (pr ++ z)
    ⟨List.isPrefixOf_iff_prefix.mpr ⟨z, by rw [List.cons_append]⟩, by simp⟩]
  congr 1
  have : List.drop ((p0 :: pr).length - 1) (pr ++ z) = z := by
    simp only [List.length_cons, Nat.add_sub_cancel]
    exact List.drop_left pr z
  rw [this]

theorem strip_ws_num (ws num : List Char) (hws : ∀ c ∈ ws, pyIsSpace c = true)
    (hnum : ∀ c ∈ num, c.isDigit = true ∨ c = '.') :
    pyStripList (ws ++ num) = num := by
  unfold pyStripList
  rw [dropWhile_all_append pyIsSpace ws num hws (takeWhileSpace_nil_of_digitdot num hnum),
    dropWhile_eq_self_of_takeWhile_nil _ _
      (takeWhileSpace_nil_of_digitdot num.reverse
        (fun c hc => hnum c (List.mem_reverse.mp hc))),
    List.reverse_reverse]

theorem matchNum_cleanup (l num : List Char) (h : matchNum l = some num) :
    startsVersion (pyStripList (pyReplace "version".data []
      (pyReplace "Version".data [] num))) = true := by
  have hdd := matchNum_digitdot l num h
  rw [pyReplace_id_of_not_mem "Version".data [] 'V' "ersion".data rfl num
      (fun c hc => digitdot_ne_V (hdd c hc)),
    pyReplace_id_of_not_mem "version".data [] 'v' "ersion".data rfl num
      (fun c hc => digitdot_ne_v (hdd c hc)),
    pyStripList_digitdot num hdd]
  exact matchNum_startsVersion l num h

theorem matchVersionAt_cleanup (l m : List Char) (h : matchVersionAt l = some m) :
    startsVersion (pyStripList (pyReplace "version".data []
      (pyReplace "Version".data [] m))) = true := by
  unfold matchVersionAt at h
  by_cases hV : "Version".data.isPrefixOf l = true
  · rw [if_pos hV] at h
    rcases hmw : matchAfterWord (l.drop 7) with _ | m' <;> rw [hmw] at h
    · exact matchNum_cleanup l m h
    · cases h
      unfold matchAfterWord at hmw
      rcases hmn : matchNum ((l.drop 7).dropWhile pyIsSpace) with _ | num <;> rw [hmn] at hmw
      · cases hmw
      · cases hmw
        have hws : ∀ c ∈ (l.drop 7).takeWhile pyIsSpace, pyIsSpace c = true :=
          fun c hc => List.mem_takeWhile_imp hc
        have hdd := matchNum_digitdot _ num hmn
        rw [pyReplace_strip_leading "Version".data [] 'V' "ersion".data rfl _,
          List.nil_append,
          pyReplace_id_of_not_mem "Version".data [] 'V' "ersion".data rfl _
            (fun c hc => by
              rw [List.mem_append] at hc
              rcases hc with hc | hc
              · exact space_ne_V (hws c hc)
              · exact digitdot_ne_V (hdd c hc)),
          pyReplace_id_of_not_mem "version".data [] 'v' "ersion".data rfl _
            (fun c hc => by
              rw [List.mem_append] at hc
              rcases hc with hc | hc
              · exact space_ne_v (hws c hc)
              · exact digitdot_ne_v (hdd c hc)),
          strip_ws_num _ num hws hdd]
        exact matchNum_startsVersion _ num hmn
  · rw [if_neg hV] at h
    by_cases hv : "version".data.isPrefixOf l = true
    · rw [if_pos hv] at h
      rcases hmw : matchAfterWord (l.drop 7) with _ | m' <;> rw [hmw] at h
      · exact matchNum_cleanup l m h
      · cases h
        unfold matchAfterWord at hmw
        rcases hmn : matchNum ((l.drop 7).dropWhile pyIsSpace) with _ | num <;> rw [hmn] at hmw
        · cases hmw
        · cases hmw
          have hws : ∀ c ∈ (l.drop 7).takeWhile pyIsSpace, pyIsSpace c = true :=
            fun c hc => List.mem_takeWhile_imp hc
          have hdd := matchNum_digitdot _ num hmn
          rw [pyReplace_id_of_not_mem "Version".data [] 'V' "ersion".data rfl _
              (fun c hc => by
                rw [List.cons_append, List.mem_cons] at hc
                rcases hc with rfl | hc
                · decide
                · rw [List.mem_append] at hc
                  rcases hc with hc | hc
                  · intro heq; subst heq; revert hc; decide
                  · rw [List.mem_append] at hc
                    rcases hc with hc | hc
                    · exact space_ne_V (hws c hc)
                    · exact digitdot_ne_V (hdd c hc)),
            pyReplace_strip_leading "version".data [] 'v' "ersion".data rfl _,
            List.nil_append,
            pyReplace_id_of_not_mem "version".data [] 'v' "ersion".data rfl _
              (fun c hc => by
                rw [List.mem_append] at hc
                rcases hc with hc | hc
                · exact space_ne_v (hws c hc)
                · exact digitdot_ne_v (hdd c hc)),
            strip_ws_num _ num hws hdd]
          exact matchNum_startsVersion _ num hmn
    · rw [if_neg hv] at h
      exact matchNum_cleanup l m h

theorem searchVersion_from_matchAt (l m : List Char) (h : searchVersion l = some m) :
    ∃ l2, matchVersionAt l2 = some m := by
  induction l with
  | nil => cases h
  | cons c rest ih =>
    rw [searchVersion] at h
    rcases hmv : matchVersionAt (c :: rest) with _ | m' <;> rw [hmv] at h
    · exact ih h
    · cases h
      exact ⟨c :: rest, hmv⟩

/-- C10: `extract_version_number` returns either `""` or a string accepted
by `is_version_string` (it starts with digits, a dot and a digit, and has no
surrounding whitespace). -/
theorem claim10_extract_version_number_shape (s : String) :
    extract_version_number s = "" ∨ is_version_string (extract_version_number s) = true := by
  unfold extract_version_number
  rcases hs : searchVersion s.data with _ | m
  · exact Or.inl rfl
  · right
    obtain ⟨l2, hl2⟩ := searchVersion_from_matchAt _ _ hs
    exact matchVersionAt_cleanup l2 m hl2

/-! ## Sorting lemmas (Python list comparison, stable insertion sort) -/

theorem pyListLe_total : ∀ x y : List Int, pyListLe x y = true ∨ pyListLe y x = true := by
  intro x
  induction x with
  | nil => intro y; exact Or.inl rfl
  | cons a as ih =>
    intro y
    rcases y with _ | ⟨b, bs⟩
    · exact Or.inr rfl
    · simp only [pyListLe]
      rcases lt_trichotomy a b with h | h | h
      · left; rw [if_pos h]
      · subst h
        rw [if_neg (lt_irrefl a), if_neg (lt_irrefl a), if_neg (lt_irrefl a),
          if_neg (lt_irrefl a)]
        exact ih bs
      · right; rw [if_pos h]

theorem pyListLe_trans : ∀ x y z : List Int, pyListLe x y = true → pyListLe y z = true →
    pyListLe x z = true := by
  intro x
  induction x with
  | nil => intro y z _ _; rfl
  | cons a as ih =>
    intro y z h1 h2
    rcases y with _ | ⟨b, bs⟩
    · simp [pyListLe] at h1
    · rcases z with _ | ⟨c, cs⟩
      · simp [pyListLe] at h2
      · simp only [pyListLe] at h1 h2 ⊢
        rcases lt_trichotomy a b with hab | hab | hab
        · rcases lt_trichotomy b c with hbc | hbc | hbc
          · rw [if_pos (lt_trans hab hbc)]
          · subst hbc; rw [if_pos hab]
          · rw [if_neg (by omega), if_pos hbc] at h2; cases h2
        · subst hab
          rw [if_neg (lt_irrefl a), if_neg (lt_irrefl a)] at h1
          rcases lt_trichotomy a c with hac | hac | hac
          · rw [if_pos hac]
          · subst hac
            rw [if_neg (lt_irrefl a), if_neg (lt_irrefl a)] at h2 ⊢
            exact ih bs cs h1 h2
          · rw [if_neg (by omega), if_pos hac] at h2; cases h2
        · rw [if_neg (by omega), if_pos hab] at h1; cases h1

theorem mem_insertB {α : Type} (le : α → α → Bool) (a x : α) :
    ∀ l : List α, x ∈ insertB le a l ↔ x = a ∨ x ∈ l := by
  intro l
  induction l with
  | nil => simp [insertB]
  | cons b bs ih =>
    simp only [insertB]
    by_cases hab : le a b = true
    · rw [if_pos hab]
      simp
    · rw [if_neg hab]
      simp only [List.mem_cons, ih]
      tauto

theorem insertB_perm {α : Type} (le : α → α → Bool) (a : α) :
    ∀ l : List α, (insertB le a l).Perm (a :: l) := by
  intro l
  induction l with
  | nil => exact List.Perm.refl _
  | cons b bs ih =>
    simp only [insertB]
    by_cases hab : le a b = true
    · rw [if_pos hab]
    · rw [if_neg hab]
      exact ((List.perm_cons b).mpr ih).trans (List.Perm.swap a b bs)

theorem sortB_perm {α : Type} (le : α → α → Bool) :
    ∀ l : List α, (sortB le l).Perm l := by
  intro l
  induction l with
  | nil => exact List.Perm.refl _
  | cons a as ih =>
    exact (insertB_perm le a (sortB le as)).trans ((List.perm_cons a).mpr ih)

theorem pairwise_insertB {α : Type} (le : α → α → Bool)
    (htot : ∀ x y, le x y = true ∨ le y x = true)
    (htrans : ∀ x y z, le x y = true → le y z = true → le x z = true) (a : α) :
    ∀ l : List α, l.Pairwise (fun x y => le x y = true) →
      (insertB le a l).Pairwise (fun x y => le x y = true) := by
  intro l
  induction l with
  | nil => intro _; simp [insertB]
  | cons b bs ih =>
    intro hl
    rw [List.pairwise_cons] at hl
    simp only [insertB]
    by_cases hab : le a b = true
    · rw [if_pos hab]
      rw [List.pairwise_cons]
      refine ⟨?_, List.pairwise_cons.mpr hl⟩
      intro y hy
      rcases List.mem_cons.mp hy with rfl | hy
      · exact hab
      · exact htrans a b y hab (hl.1 y hy)
    · rw [if_neg hab]
      rw [List.pairwise_cons]
      refine ⟨?_, ih hl.2⟩
      intro y hy
      rcases (mem_insertB le a y bs).mp hy with rfl | hy
      · rcases htot y b with h | h
        · cases hab h
        · exact h
      · exact hl.1 y hy

theorem pairwise_sortB {α : Type} (le : α → α → Bool)
    (htot : ∀ x y, le x y = true ∨ le y x = true)
    (htrans : ∀ x y z, le x y = true → le y z = true → le x z = true) :
    ∀ l : List α, (sortB le l).Pairwise (fun x y => le x y = true) := by
  intro l
  induction l with
  | nil => exact List.Pairwise.nil
  | cons a as ih => exact pairwise_insertB le htot htrans a (sortB le as) ih

theorem dwLe_total : ∀ x y : List Int × DWPair, dwLe x y = true ∨ dwLe y x = true :=
  fun x y => (pyListLe_total y.1 x.1).elim Or.inl Or.inr

theorem dwLe_trans : ∀ x y z : List Int × DWPair,
    dwLe x y = true → dwLe y z = true → dwLe x z = true :=
  fun _ _ _ h1 h2 => pyListLe_trans _ _ _ h2 h1

/-! ## The decorated pairs carry their own sort keys -/

theorem mapOption_mem {α β : Type} (f : α → Option β) :
    ∀ (l : List α) (out : List β), mapOption f l = some out →
      ∀ b ∈ out, ∃ a ∈ l, f a = some b := by
  intro l
  induction l with
  | nil =>
    intro out h b hb
    cases h
    cases hb
  | cons a l ih =>
    intro out h b hb
    simp only [mapOption] at h
    rcases hfa : f a with _ | b0 <;> rw [hfa] at h
    · cases h
    · rcases hrest : mapOption f l with _ | bs <;> rw [hrest] at h
      · cases h
      · cases h
        rcases List.mem_cons.mp hb with rfl | hb
        · exact ⟨a, List.mem_cons_self a l, hfa⟩
        · obtain ⟨a', ha', hfa'⟩ := ih bs hrest b hb
          exact ⟨a', List.mem_cons_of_mem a ha', hfa'⟩

theorem dwKeyed_mem (data : List DWPair) (keyed : List (List Int × DWPair))
    (h : dwKeyed data = some keyed) : ∀ p ∈ keyed, sortKey p.2.mule_version = some p.1 := by
  intro p hp
  obtain ⟨x, _, hfx⟩ := mapOption_mem _ data keyed h p hp
  rcases hk : sortKey x.mule_version with _ | k <;> rw [hk] at hfx
  · cases hfx
  · rw [Option.map_some'] at hfx
    cases hfx
    exact hk

theorem dwKeyed_proj : ∀ (data : List DWPair) (keyed : List (List Int × DWPair)),
    dwKeyed data = some keyed → keyed.map Prod.snd = data := by
  intro data
  induction data with
  | nil =>
    intro keyed h
    cases h
    rfl
  | cons x xs ih =>
    intro keyed h
    simp only [dwKeyed, mapOption] at h
    rcases hk : sortKey x.mule_version with _ | k <;> rw [hk] at h
    · rw [Option.map_none'] at h; cases h
    · rw [Option.map_some'] at h
      rcases hrest : mapOption (fun x => (sortKey x.mule_version).map (fun k => (k, x))) xs
        with _ | keyed' <;> rw [hrest] at h
      · cases h
      · cases h
        rw [List.map_cons, ih keyed' hrest]

/-! ## C3: the DataWeave sort -/

/-- C3, counterexample: `"4.4 Edge"` is accepted by extraction (it passes
`is_version_string`) and contains a dot, so its sort key is
`[int("4"), int("4 Edge")]`, which raises instead of falling back to `[0]`;
the scraper call fails rather than sorting. -/
theorem claim3_sort_key_counterexample :
    extract_dataweave_versions dwBadKeySoup emptySoup fetchFail = .error () ∧
    compatData dwBadKeySoup.tables = [⟨"4.4 Edge", "2.4"⟩] ∧
    is_version_string "4.4 Edge" = true ∧
    sortKey "4.4 Edge" = none := by
  refine ⟨by decide, by decide, by decide, by decide⟩

/-- C3, amended: when every extracted `mule_version` has a sort key (every
dot-separated component parses as an `int` — otherwise the call raises), the
output is sorted so that every adjacent pair is descending under Python's
component-wise integer list comparison.  The `[0]` key exists in the code
only for versions without a dot, which extraction never produces. -/
theorem claim3_sorted_amended (dws js : Soup) (fetch : String → Except String Soup)
    (info : DWInfo) (h : extract_dataweave_versions dws js fetch = .ok info) :
    List.Chain' (fun a b : DWEntry => ∀ ka kb, sortKey a.mule_version = some ka →
      sortKey b.mule_version = some kb → pyListLe kb ka = true)
      info.all_compatibility_data := by
  simp only [extract_dataweave_versions] at h
  split at h
  case h_1 => cases h
  case h_2 sorted_data hsp =>
    cases h
    unfold sortPairs at hsp
    rcases hk : dwKeyed (compatData dws.tables) with _ | keyed <;> rw [hk] at hsp
    · cases hsp
    · rw [Option.map_some'] at hsp
      cases hsp
      simp only [List.map_map]
      apply List.Pairwise.chain'
      apply List.pairwise_map.mpr
      have hp := pairwise_sortB dwLe dwLe_total dwLe_trans keyed
      apply hp.imp_of_mem
      intro x y hx hy hxy ka kb hka hkb
      have hx' : x ∈ keyed := ((sortB_perm dwLe keyed).mem_iff).mp hx
      have hy' : y ∈ keyed := ((sortB_perm dwLe keyed).mem_iff).mp hy
      have hkx := dwKeyed_mem _ keyed hk x hx'
      have hky := dwKeyed_mem _ keyed hk y hy'
      simp only [Function.comp] at hka hkb
      rw [hkx] at hka
      rw [hky] at hkb
      cases hka
      cases hkb
      exact hxy

/-- C3, witness for the amended theorem: two numeric rows come out in
descending order. -/
theorem claim3_amended_witness :
    List.Chain' (fun a b : DWEntry => ∀ ka kb, sortKey a.mule_version = some ka →
      sortKey b.mule_version = some kb → pyListLe kb ka = true)
      dwTwoInfo.all_compatibility_data :=
  claim3_sorted_amended dwTwoRowsSoup emptySoup fetchFail dwTwoInfo (by decide)

/-! ## C7: the compatibility table is not deduplicated -/

/-- C7, counterexample: a page listing the same `{mule_version,
dataweave_version}` row twice yields `all_compatibility_data` with two equal
entries — nothing deduplicates. -/
theorem claim7_duplicates_counterexample :
    extract_dataweave_versions dwDupSoup emptySoup fetchFail = .ok dwDupInfo ∧
    dwDupInfo.all_compatibility_data = [⟨"4.4", "2.4", []⟩, ⟨"4.4", "2.4", []⟩] ∧
    ¬ dwDupInfo.all_compatibility_data.Pairwise (fun a b =>
        ¬(a.mule_version = b.mule_version ∧ a.dataweave_version = b.dataweave_version)) := by
  refine ⟨by decide, by decide, by decide⟩

/-- C7, amended: `all_compatibility_data` preserves the extracted rows as a
multiset — it is the stable descending sort of exactly the accepted rows,
with duplicates kept, not a deduplicated table. -/
theorem claim7_multiset_amended (dws js : Soup) (fetch : String → Except String Soup)
    (info : DWInfo) (h : extract_dataweave_versions dws js fetch = .ok info) :
    List.Perm
      (info.all_compatibility_data.map (fun e => (e.mule_version, e.dataweave_version)))
      ((compatData dws.tables).map (fun p => (p.mule_version, p.dataweave_version))) := by
  simp only [extract_dataweave_versions] at h
  split at h
  case h_1 => cases h
  case h_2 sorted_data hsp =>
    cases h
    unfold sortPairs at hsp
    rcases hk : dwKeyed (compatData dws.tables) with _ | keyed <;> rw [hk] at hsp
    · cases hsp
    · rw [Option.map_some'] at hsp
      cases hsp
      simp only [List.map_map]
      have hperm := (sortB_perm dwLe keyed).map
        (fun x : List Int × DWPair => (x.2.mule_version, x.2.dataweave_version))
      refine hperm.trans ?_
      have hproj := dwKeyed_proj _ keyed hk
      rw [← hproj, List.map_map]
      exact List.Perm.refl _

/-- C7, witness for the amended theorem: the duplicated page. -/
theorem claim7_amended_witness :
    List.Perm
      (dwDupInfo.all_compatibility_data.map (fun e => (e.mule_version, e.dataweave_version)))
      ((compatData dwDupSoup.tables).map (fun p => (p.mule_version, p.dataweave_version))) :=
  claim7_multiset_amended dwDupSoup emptySoup fetchFail dwDupInfo (by decide)

/-! ## C2: `source_urls` does not list auxiliary release-notes fetches -/

/-- C2, counterexample: the DataWeave scraper fetches (successfully) the
per-version release-notes page for `2.4` — it even records that URL in the
returned `release_notes` entry — yet `source_urls` is the fixed two-element
list and does not contain it. -/
theorem claim2_source_urls_counterexample :
    extract_dataweave_versions dwOneRowSoup emptySoup fetchServesRN24 = .ok dwRNInfo ∧
    (fetchServesRN24 (dataweaveReleaseNotesUrl "2.4")).isOk = true ∧
    dwRNInfo.release_notes
      = [("2.4", ⟨[], [], [], dataweaveReleaseNotesUrl "2.4"⟩)] ∧
    dataweaveReleaseNotesUrl "2.4" ∉ dwRNInfo.source_urls := by
  refine ⟨by decide, by decide, by decide, by decide⟩

theorem processConnectorPage_specific_urls (ps : Soup) (aid curl cname : String)
    (jd : List (String × List Nat)) (l : List ConnectorVersionEntry)
    (j : List (String × List Nat)) (u : List String)
    (h : processConnectorPage ps aid curl cname jd = .specific l j u) :
    u = [curl, MULESOFT_URLS_java_support] := by
  simp only [processConnectorPage] at h
  split at h
  · cases h; rfl
  · split at h
    · cases h; rfl
    · cases h

/-- C2, amended: on success the DataWeave scraper's `source_urls` is exactly
the DataWeave index page and the Java-support page, and a connector-specific
success lists exactly the resolved connector page and the Java-support page;
auxiliary fetches (per-version release-notes pages, the connector
release-notes index) are never included. -/
theorem claim2_source_urls_amended :
    (∀ (dws js : Soup) (fetch : String → Except String Soup) (info : DWInfo),
      extract_dataweave_versions dws js fetch = .ok info →
        info.source_urls = [MULESOFT_URLS_dataweave, MULESOFT_URLS_java_support]) ∧
    (∀ (cs js : Soup) (aid : String) (fetch : String → Except String Soup)
      (l : List ConnectorVersionEntry) (j : List (String × List Nat)) (u : List String),
      extract_connector_versions cs js (some aid) fetch = .specific l j u →
        ∃ cu, u = [cu, MULESOFT_URLS_java_support]) := by
  constructor
  · intro dws js fetch info h
    simp only [extract_dataweave_versions] at h
    split at h
    case h_1 => cases h
    case h_2 sorted hsp => cases h; rfl
  · intro cs js aid fetch l j u h
    simp only [extract_connector_versions] at h
    split at h
    case h_1 => cases h
    case h_2 idx heq =>
      split at h
      case h_1 => cases h
      case h_2 pair heq2 =>
        split at h
        case h_1 => cases h
        case h_2 psoup heq3 =>
          exact ⟨_, processConnectorPage_specific_urls _ _ _ _ _ _ _ _ h⟩

/-- C2, witness for the amended theorem: the concrete DataWeave run of the
counterexample has exactly the two primary source URLs. -/
theorem claim2_amended_witness :
    dwRNInfo.source_urls = [MULESOFT_URLS_dataweave, MULESOFT_URLS_java_support] :=
  claim2_source_urls_amended.1 dwOneRowSoup emptySoup fetchServesRN24 dwRNInfo (by decide)

/-! ## C8: the raw-text fallback of the connector scraper -/

/-- C8: when the fetched connector page has no compatibility table matching
the software/version header filter and no version-bearing heading, but its
raw text contains a version-like substring, the scraper returns the first at
most five raw-text matches as entries with `mule_version = "Unknown"` and no
JDK versions. -/
theorem claim8_raw_text_fallback (connectors_soup java_soup : Soup) (aid : String)
    (fetch : String → Except String Soup) (idx ps : Soup) (href cname : String)
    (h1 : fetch MULESOFT_URLS_connector_release_notes = .ok idx)
    (h2 : findConnectorLink idx (connectorVariations aid) = some (href, cname))
    (h3 : fetch (resolveConnectorUrl href) = .ok ps)
    (h4 : connCompatTables ps.tables = [])
    (h5 : ∀ t ∈ ps.headingBlocks.map Prod.fst, headingVersionMatch t = false)
    (h6 : findAllVersions ps.allText.data ≠ []) :
    extract_connector_versions connectors_soup java_soup (some aid) fetch
      = .specific
          (((findAllVersions ps.allText.data).take 5).map
            (simpleConnectorEntry aid (actualConnectorName cname)))
          (extractJavaDataSimple java_soup)
          [resolveConnectorUrl href, MULESOFT_URLS_java_support] ∧
    (((findAllVersions ps.allText.data).take 5).map
        (simpleConnectorEntry aid (actualConnectorName cname))).length ≤ 5 ∧
    ∀ e ∈ ((findAllVersions ps.allText.data).take 5).map
        (simpleConnectorEntry aid (actualConnectorName cname)),
      e.mule_version = "Unknown" ∧ e.jdk_versions = [] := by
  refine ⟨?_, ?_, ?_⟩
  · have hfilter : (ps.headingBlocks.map Prod.fst).filter headingVersionMatch = [] :=
      List.filter_eq_nil_iff.mpr (fun t ht => by rw [h5 t ht]; exact Bool.false_ne_true)
    have hcv : connectorVersionEntries (ps.headingBlocks.map Prod.fst) "Unknown" [] aid
        (actualConnectorName cname) = [] := by
      unfold connectorVersionEntries
      rw [hfilter]
      rfl
    simp only [extract_connector_versions, h1, h2, h3]
    simp only [processConnectorPage, h4, hcv]
    rw [if_neg (by simp), if_pos h6]
  · rw [List.length_map, List.length_take]
    omega
  · intro e he
    obtain ⟨v, _, rfl⟩ := List.mem_map.mp he
    exact ⟨rfl, rfl⟩

/-- C8, witness: the `http` connector resolved through the fixture index,
whose page has only raw text with one version-like substring. -/
theorem claim8_witness :
    extract_connector_versions emptySoup emptySoup (some "http") fetchConnHttp
      = .specific
          (((findAllVersions connPlainPageSoup.allText.data).take 5).map
            (simpleConnectorEntry "http" (actualConnectorName "HTTP Connector Release Notes")))
          (extractJavaDataSimple emptySoup)
          [resolveConnectorUrl "/release-notes/connector/connector-http",
            MULESOFT_URLS_java_support] :=
  (claim8_raw_text_fallback emptySoup emptySoup "http" fetchConnHttp connIndexSoup
    connPlainPageSoup "/release-notes/connector/connector-http" "HTTP Connector Release Notes"
    (by decide) (by decide) (by decide) (by decide) (by decide) (by decide)).1

end Mulesoft
